import Mathlib

/-!
Shallow embedding of the BBolt-backed deduplication storage of the
static-ct repository (`storage/bbolt/dedup.go`).

The store keeps two buckets:
  * the dedup bucket (`leafIdx`) maps a leaf hash to the 16-byte
    concatenation of two big-endian `uint64` values, index then timestamp;
  * the size bucket (`logSize`) holds a single entry under the key
    `"size"`: the 8-byte big-endian counter of contiguous indices.

Buckets are modelled as association lists from byte strings to byte
strings; bytes are naturals (each meant to lie below 256).  Machine
`uint64` values are naturals; wrap-around is made explicit through the
byte codec (`itob` keeps only the low 64 bits, exactly as Go's
`binary.BigEndian.AppendUint64` does).
-/

/-- Byte strings: lists of naturals, one per byte. -/
abbrev Bytes := List Nat

/-- A BBolt bucket, as used here: point get/put over keyed byte strings,
modelled as an association list. -/
abbrev Bucket := List (Bytes × Bytes)

/-- `Bucket.Get`: point lookup; `none` when the key is absent (Go returns
`nil`). -/
def bGet : Bucket → Bytes → Option Bytes
  | [], _ => none
  | p :: rest, k => if p.1 = k then some p.2 else bGet rest k

/-- `Bucket.Put`: unconditional overwrite, inserting the key when absent. -/
def bPut : Bucket → Bytes → Bytes → Bucket
  | [], k, v => [(k, v)]
  | p :: rest, k, v => if p.1 = k then (k, v) :: rest else p :: bPut rest k v

/-- `itob`: 8-byte big-endian representation of `idx`
(Go: `binary.BigEndian.AppendUint64(nil, idx)`); only the low 64 bits
survive, as for a `uint64`. -/
def itob (idx : Nat) : Bytes :=
  [idx / 2 ^ 56 % 256, idx / 2 ^ 48 % 256, idx / 2 ^ 40 % 256, idx / 2 ^ 32 % 256,
   idx / 2 ^ 24 % 256, idx / 2 ^ 16 % 256, idx / 2 ^ 8 % 256, idx % 256]

/-- `btoi`: big-endian `uint64` read of the first 8 bytes
(Go: `binary.BigEndian.Uint64`).  Go panics on fewer than 8 bytes; every
call site in the source guarantees at least 8, and the catch-all branch
only makes the model total. -/
def btoi : Bytes → Nat
  | b0 :: b1 :: b2 :: b3 :: b4 :: b5 :: b6 :: b7 :: _ =>
    ((((((b0 * 256 + b1) * 256 + b2) * 256 + b3) * 256 + b4) * 256 + b5) * 256 + b6) * 256 + b7
  | _ => 0

/-- `vtob`: concatenation of the index and timestamp encodings.  The Go
version threads `binary.Append` errors, but appending a fixed-width
integer to a byte slice cannot fail, so the error branch is dead. -/
def vtob (idx timestamp : Nat) : Except String Bytes :=
  Except.ok (itob idx ++ itob timestamp)

/-- `btov`: parse a 16-byte value into index and timestamp; any other
length is a decode error. -/
def btov (b : Bytes) : Except String (Nat × Nat) :=
  if b.length ≠ 16 then
    Except.error "input value length is not 16"
  else
    Except.ok (btoi (List.take 8 b), btoi (List.drop 8 b))

/-- The key of the single entry of the size bucket: the bytes of
`"size"`. -/
def sizeKey : Bytes := [115, 105, 122, 101]

/-- `dedup.LeafDedupInfo`: one record passed to `Add`. -/
structure LeafDedupInfo where
  leafID : Bytes
  idx : Nat
  timestamp : Nat
deriving DecidableEq

/-- `dedup.SCTDedupInfo`: the record returned by `Get`. -/
structure SCTDedupInfo where
  idx : Nat
  timestamp : Nat
deriving DecidableEq

/-- The open store: the two buckets (both present once `NewStorage`
succeeded). -/
structure Storage where
  dedup : Bucket
  sizeB : Bucket
deriving DecidableEq

/-- The body of the per-record `db.Update` transaction inside
`Storage.Add`: read the counter (error when its key is absent), encode the
value, apply the tie-break rule to the dedup bucket, and advance the
counter when the incoming index equals it. -/
def addOne (s : Storage) (ldi : LeafDedupInfo) : Except String Storage :=
  match bGet s.sizeB sizeKey with
  | none => Except.error "can not find log size in bucket logSize"
  | some sizeBytes =>
    match vtob ldi.idx ldi.timestamp with
    | Except.error e => Except.error e
    | Except.ok vB =>
      let size := btoi sizeBytes
      let dedup1 : Bucket :=
        match bGet s.dedup ldi.leafID with
        | some old =>
          if old.length = 16 ∧ btoi (List.take 8 old) ≤ ldi.idx then s.dedup
          else bPut s.dedup ldi.leafID vB
        | none => bPut s.dedup ldi.leafID vB
      let sizeB1 : Bucket :=
        if size = ldi.idx then bPut s.sizeB sizeKey (itob (size + 1)) else s.sizeB
      Except.ok { dedup := dedup1, sizeB := sizeB1 }

/-- `Storage.Add`: one transaction per record, in order, failing fast on
the first record whose transaction errors. -/
def Storage.Add : Storage → List LeafDedupInfo → Except String Storage
  | s, [] => Except.ok s
  | s, ldi :: rest =>
    match addOne s ldi with
    | Except.error _ => Except.error "db.Update(): error writing leaf index"
    | Except.ok s1 => Storage.Add s1 rest

/-- `Storage.Get`: comma-ok lookup in the dedup bucket; an absent key
yields a zero record, `false` and no error, a present key is decoded with
`btov` and a decode failure is surfaced. -/
def Storage.Get (s : Storage) (leafID : Bytes) : Except String (SCTDedupInfo × Bool) :=
  match bGet s.dedup leafID with
  | none => Except.ok ({ idx := 0, timestamp := 0 }, false)
  | some v =>
    match btov v with
    | Except.error _ => Except.error "btov(): decode failed"
    | Except.ok (i, t) => Except.ok ({ idx := i, timestamp := t }, true)

/-- `Storage.LogSize`: read the counter entry; an absent key is an error.
A present value is copied into a zero-initialised 8-byte buffer before
decoding, exactly as the Go `copy` into `make([]byte, 8)` does. -/
def Storage.LogSize (s : Storage) : Except String Nat :=
  match bGet s.sizeB sizeKey with
  | none => Except.error "can not find log size in bucket logSize"
  | some v => Except.ok (btoi (List.take 8 (v ++ List.replicate 8 0)))

/-- The pre-open state of a BBolt database file: either bucket may be
present or absent. -/
structure DB where
  dedupB : Option Bucket
  sizeB : Option Bucket

/-- `NewStorage`: the three-way case split of the initialisation
transaction.  Both buckets absent: create both and write counter 0; both
present: resume; exactly one present: inconsistent-state error. -/
def NewStorage (db : DB) : Except String Storage :=
  match db.dedupB, db.sizeB with
  | none, none => Except.ok { dedup := [], sizeB := bPut [] sizeKey (itob 0) }
  | none, some _ => Except.error "inconsistent deduplication storage state"
  | some _, none => Except.error "inconsistent deduplication storage state"
  | some d, some sz => Except.ok { dedup := d, sizeB := sz }

/-- The store produced by `NewStorage` on a fresh database. -/
def freshStore : Storage := { dedup := [], sizeB := [(sizeKey, itob 0)] }

/-- Wrap a list of `(index, timestamp)` pairs for a fixed leaf into `Add`
records. -/
def mkLdis (leafID : Bytes) (l : List (Nat × Nat)) : List LeafDedupInfo :=
  l.map (fun p => { leafID := leafID, idx := p.1, timestamp := p.2 })

/-- The minimum of the indices of `a :: l`. -/
def minIdx (a : Nat × Nat) (l : List (Nat × Nat)) : Nat :=
  l.foldl (fun m p => min m p.1) a.1

/-- The running-minimum entry of `a :: l`: the pair carrying the smallest
index, ties resolved to the earliest occurrence. -/
def minEntry (a : Nat × Nat) : List (Nat × Nat) → Nat × Nat
  | [] => a
  | p :: rest => if a.1 ≤ p.1 then minEntry a rest else minEntry p rest

theorem itob_length (n : Nat) : (itob n).length = 8 := rfl

theorem btoi_itob (n : Nat) (h : n < 2 ^ 64) : btoi (itob n) = n := by
  simp only [itob, btoi]
  omega

theorem take_itob_append (a b : Nat) : List.take 8 (itob a ++ itob b) = itob a := by
  rw [show (8 : Nat) = (itob a).length from rfl, List.take_left]

theorem drop_itob_append (a b : Nat) : List.drop 8 (itob a ++ itob b) = itob b := by
  rw [show (8 : Nat) = (itob a).length from rfl, List.drop_left]

theorem btov_itob_append (a b : Nat) (ha : a < 2 ^ 64) (hb : b < 2 ^ 64) :
    btov (itob a ++ itob b) = Except.ok (a, b) := by
  unfold btov
  rw [if_neg (by simp [itob_length]), take_itob_append, drop_itob_append,
    btoi_itob a ha, btoi_itob b hb]

theorem bGet_bPut_same (b : Bucket) (k v : Bytes) : bGet (bPut b k v) k = some v := by
  induction b with
  | nil => simp [bGet, bPut]
  | cons p rest ih =>
    by_cases h : p.1 = k
    · simp [bGet, bPut, h]
    · simp [bGet, bPut, h, ih]

theorem bGet_bPut_ne (b : Bucket) (k kq v : Bytes) (h : kq ≠ k) :
    bGet (bPut b k v) kq = bGet b kq := by
  have hk : ¬(k = kq) := fun e => h e.symm
  induction b with
  | nil => simp [bGet, bPut, hk]
  | cons p rest ih =>
    by_cases hp : p.1 = k
    · subst hp
      simp [bGet, bPut, hk]
    · simp only [bPut, if_neg hp, bGet]
      by_cases hq : p.1 = kq <;> simp [hq, ih]

/-- Full description of a successful `addOne` transaction: given the
counter entry, the new dedup bucket follows the tie-break rule and the
counter advances exactly when the incoming index equals it. -/
theorem addOne_eq (s : Storage) (ldi : LeafDedupInfo) (sb : Bytes)
    (hsb : bGet s.sizeB sizeKey = some sb) :
    addOne s ldi = Except.ok
      { dedup :=
          match bGet s.dedup ldi.leafID with
          | some old =>
            if old.length = 16 ∧ btoi (List.take 8 old) ≤ ldi.idx then s.dedup
            else bPut s.dedup ldi.leafID (itob ldi.idx ++ itob ldi.timestamp)
          | none => bPut s.dedup ldi.leafID (itob ldi.idx ++ itob ldi.timestamp),
        sizeB :=
          if btoi sb = ldi.idx then bPut s.sizeB sizeKey (itob (btoi sb + 1))
          else s.sizeB } := by
  unfold addOne vtob
  rw [hsb]

/-- `addOne` fails exactly when the counter key is absent. -/
theorem addOne_err (s : Storage) (ldi : LeafDedupInfo)
    (hsb : bGet s.sizeB sizeKey = none) :
    addOne s ldi = Except.error "can not find log size in bucket logSize" := by
  unfold addOne
  rw [hsb]

/-- A successful `addOne` keeps the counter key present. -/
theorem addOne_sizeKey (s sq : Storage) (ldi : LeafDedupInfo)
    (h : addOne s ldi = Except.ok sq) :
    ∃ sbq, bGet sq.sizeB sizeKey = some sbq := by
  cases hsb : bGet s.sizeB sizeKey with
  | none => rw [addOne_err s ldi hsb] at h; cases h
  | some sb =>
    rw [addOne_eq s ldi sb hsb] at h
    cases h
    by_cases hadv : btoi sb = ldi.idx
    · exact ⟨itob (btoi sb + 1), by simp [hadv, bGet_bPut_same]⟩
    · exact ⟨sb, by simp [hadv, hsb]⟩

theorem foldl_min_le (l : List (Nat × Nat)) (i : Nat) :
    l.foldl (fun m p => min m p.1) i ≤ i := by
  induction l generalizing i with
  | nil => exact Nat.le_refl i
  | cons p rest ih =>
    exact le_trans (ih (min i p.1)) (min_le_left _ _)

theorem minIdx_le_fst (a : Nat × Nat) (l : List (Nat × Nat)) : minIdx a l ≤ a.1 :=
  foldl_min_le l a.1

theorem minIdx_cons (a p : Nat × Nat) (rest : List (Nat × Nat)) :
    minIdx a (p :: rest) = minIdx (if a.1 ≤ p.1 then a else p) rest := by
  by_cases h : a.1 ≤ p.1
  · simp [minIdx, List.foldl, h, min_eq_left h]
  · simp [minIdx, List.foldl, h, min_eq_right (le_of_lt (lt_of_not_le h))]

theorem minEntry_cons (a p : Nat × Nat) (rest : List (Nat × Nat)) :
    minEntry a (p :: rest) = minEntry (if a.1 ≤ p.1 then a else p) rest := by
  by_cases h : a.1 ≤ p.1 <;> simp [minEntry, h]

theorem minEntry_fst (l : List (Nat × Nat)) : ∀ a, (minEntry a l).1 = minIdx a l := by
  induction l with
  | nil => intro a; rfl
  | cons p rest ih =>
    intro a
    rw [minEntry_cons, minIdx_cons, ih]

theorem minEntry_mem (l : List (Nat × Nat)) : ∀ a, minEntry a l ∈ a :: l := by
  induction l with
  | nil => intro a; exact List.mem_singleton.mpr rfl
  | cons p rest ih =>
    intro a
    by_cases h : a.1 ≤ p.1
    · rw [show minEntry a (p :: rest) = minEntry a rest from by simp [minEntry, h]]
      rcases List.mem_cons.mp (ih a) with h1 | h1
      · rw [h1]; exact List.mem_cons_self _ _
      · exact List.mem_cons_of_mem _ (List.mem_cons_of_mem _ h1)
    · rw [show minEntry a (p :: rest) = minEntry p rest from by simp [minEntry, h]]
      exact List.mem_cons_of_mem _ (ih p)

/-- `minEntry` is the first pair of the sequence carrying the minimal
index. -/
theorem find_minEntry (l : List (Nat × Nat)) :
    ∀ a, (a :: l).find? (fun p => p.1 == minIdx a l) = some (minEntry a l) := by
  induction l with
  | nil =>
    intro a
    rw [show minIdx a [] = a.1 from rfl, show minEntry a [] = a from rfl]
    exact List.find?_cons_of_pos _ (by simp)
  | cons p rest ih =>
    intro a
    by_cases h : a.1 ≤ p.1
    · have hmi : minIdx a (p :: rest) = minIdx a rest := by
        rw [minIdx_cons, if_pos h]
      have hme : minEntry a (p :: rest) = minEntry a rest := by
        rw [minEntry_cons, if_pos h]
      rw [hmi, hme]
      by_cases ha : a.1 = minIdx a rest
      · have h1 : (a :: rest).find? (fun q => q.1 == minIdx a rest) = some a :=
          List.find?_cons_of_pos _ (by simp [ha])
        have h2 : minEntry a rest = a := by
          have := (ih a).symm.trans h1
          exact Option.some.inj this
        rw [h2]
        exact List.find?_cons_of_pos _ (by simp [ha])
      · have hlt : minIdx a rest < a.1 :=
          lt_of_le_of_ne (minIdx_le_fst a rest) (fun e => ha e.symm)
        have hpne : (p.1 == minIdx a rest) = false := by
          simp only [beq_eq_false_iff_ne, ne_eq]
          omega
        have hane : (a.1 == minIdx a rest) = false := by
          simp only [beq_eq_false_iff_ne, ne_eq]
          omega
        rw [List.find?_cons, List.find?_cons]
        simp only [hane, hpne]
        have := ih a
        rw [List.find?_cons] at this
        simp only [hane] at this
        exact this
    · have hlt : p.1 < a.1 := lt_of_not_le h
      have hmi : minIdx a (p :: rest) = minIdx p rest := by
        rw [minIdx_cons, if_neg h]
      have hme : minEntry a (p :: rest) = minEntry p rest := by
        rw [minEntry_cons, if_neg h]
      rw [hmi, hme]
      have hane : (a.1 == minIdx p rest) = false := by
        have := minIdx_le_fst p rest
        simp only [beq_eq_false_iff_ne, ne_eq]
        omega
      rw [List.find?_cons]
      simp only [hane]
      exact ih p

/-- `addOne` when the existing entry wins the tie-break: the dedup bucket
is untouched. -/
theorem addOne_skip (s : Storage) (ldi : LeafDedupInfo) (sb old : Bytes)
    (hsb : bGet s.sizeB sizeKey = some sb)
    (hold : bGet s.dedup ldi.leafID = some old)
    (hc : old.length = 16 ∧ btoi (List.take 8 old) ≤ ldi.idx) :
    addOne s ldi = Except.ok
      { dedup := s.dedup,
        sizeB :=
          if btoi sb = ldi.idx then bPut s.sizeB sizeKey (itob (btoi sb + 1))
          else s.sizeB } := by
  rw [addOne_eq s ldi sb hsb, hold]
  simp [hc]

/-- `addOne` when the existing entry loses the tie-break (or is corrupt):
the incoming record overwrites it. -/
theorem addOne_replace (s : Storage) (ldi : LeafDedupInfo) (sb old : Bytes)
    (hsb : bGet s.sizeB sizeKey = some sb)
    (hold : bGet s.dedup ldi.leafID = some old)
    (hc : ¬(old.length = 16 ∧ btoi (List.take 8 old) ≤ ldi.idx)) :
    addOne s ldi = Except.ok
      { dedup := bPut s.dedup ldi.leafID (itob ldi.idx ++ itob ldi.timestamp),
        sizeB :=
          if btoi sb = ldi.idx then bPut s.sizeB sizeKey (itob (btoi sb + 1))
          else s.sizeB } := by
  rw [addOne_eq s ldi sb hsb, hold]
  simp [hc]

/-- `addOne` on a leaf with no existing entry: the record is inserted. -/
theorem addOne_insert (s : Storage) (ldi : LeafDedupInfo) (sb : Bytes)
    (hsb : bGet s.sizeB sizeKey = some sb)
    (hold : bGet s.dedup ldi.leafID = none) :
    addOne s ldi = Except.ok
      { dedup := bPut s.dedup ldi.leafID (itob ldi.idx ++ itob ldi.timestamp),
        sizeB :=
          if btoi sb = ldi.idx then bPut s.sizeB sizeKey (itob (btoi sb + 1))
          else s.sizeB } := by
  rw [addOne_eq s ldi sb hsb, hold]

theorem Add_cons (s s1 : Storage) (ldi : LeafDedupInfo) (rest : List LeafDedupInfo)
    (h : addOne s ldi = Except.ok s1) :
    Storage.Add s (ldi :: rest) = Storage.Add s1 rest := by
  simp [Storage.Add, h]

/-- Core induction for the keep-smallest-index property: starting from a
well-formed entry `(a.1, a.2)` for `leafID`, a sequence of `Add`
transactions for the same leaf converges to its running-minimum entry. -/
theorem addSeq_min (l : List (Nat × Nat)) :
    ∀ (s : Storage) (leafID : Bytes) (a : Nat × Nat),
      a.1 < 2 ^ 64 → (∀ p ∈ l, p.1 < 2 ^ 64) →
      (∃ sb, bGet s.sizeB sizeKey = some sb) →
      bGet s.dedup leafID = some (itob a.1 ++ itob a.2) →
      ∃ sq, Storage.Add s (mkLdis leafID l) = Except.ok sq ∧
        bGet sq.dedup leafID =
          some (itob (minEntry a l).1 ++ itob (minEntry a l).2) ∧
        ∃ sbq, bGet sq.sizeB sizeKey = some sbq := by
  induction l with
  | nil =>
    intro s leafID a _ _ hsz hst
    exact ⟨s, rfl, hst, hsz⟩
  | cons p rest ih =>
    intro s leafID a ha hbound hsz hst
    obtain ⟨sb, hsb⟩ := hsz
    have hb16 : (itob a.1 ++ itob a.2).length = 16 := by
      simp [itob_length]
    have hread : btoi (List.take 8 (itob a.1 ++ itob a.2)) = a.1 := by
      rw [take_itob_append, btoi_itob a.1 ha]
    by_cases h : a.1 ≤ p.1
    · have hstep := addOne_skip s { leafID := leafID, idx := p.1, timestamp := p.2 }
        sb (itob a.1 ++ itob a.2) hsb hst ⟨hb16, by rw [hread]; exact h⟩
      rw [show mkLdis leafID (p :: rest) =
        { leafID := leafID, idx := p.1, timestamp := p.2 } :: mkLdis leafID rest from rfl]
      rw [Add_cons _ _ _ _ hstep]
      have hszq : ∃ sbq, bGet
          (if btoi sb = p.1 then bPut s.sizeB sizeKey (itob (btoi sb + 1))
           else s.sizeB : Bucket) sizeKey = some sbq := by
        by_cases hadv : btoi sb = p.1
        · exact ⟨itob (btoi sb + 1), by rw [if_pos hadv]; exact bGet_bPut_same _ _ _⟩
        · exact ⟨sb, by rw [if_neg hadv]; exact hsb⟩
      have := ih (Storage.mk s.dedup
          (if btoi sb = p.1 then bPut s.sizeB sizeKey (itob (btoi sb + 1)) else s.sizeB))
        leafID a ha (fun q hq => hbound q (List.mem_cons_of_mem _ hq)) hszq hst
      rw [minEntry_cons, if_pos h]
      exact this
    · have hlt : p.1 < a.1 := lt_of_not_le h
      have hstep := addOne_replace s { leafID := leafID, idx := p.1, timestamp := p.2 }
        sb (itob a.1 ++ itob a.2) hsb hst
        (fun hc => absurd (hread ▸ hc.2) (not_le_of_lt hlt))
      rw [show mkLdis leafID (p :: rest) =
        { leafID := leafID, idx := p.1, timestamp := p.2 } :: mkLdis leafID rest from rfl]
      rw [Add_cons _ _ _ _ hstep]
      have hszq : ∃ sbq, bGet
          (if btoi sb = p.1 then bPut s.sizeB sizeKey (itob (btoi sb + 1))
           else s.sizeB : Bucket) sizeKey = some sbq := by
        by_cases hadv : btoi sb = p.1
        · exact ⟨itob (btoi sb + 1), by rw [if_pos hadv]; exact bGet_bPut_same _ _ _⟩
        · exact ⟨sb, by rw [if_neg hadv]; exact hsb⟩
      have hstq : bGet (bPut s.dedup leafID (itob p.1 ++ itob p.2)) leafID =
          some (itob p.1 ++ itob p.2) := bGet_bPut_same _ _ _
      have := ih (Storage.mk (bPut s.dedup leafID (itob p.1 ++ itob p.2))
          (if btoi sb = p.1 then bPut s.sizeB sizeKey (itob (btoi sb + 1)) else s.sizeB))
        leafID p (hbound p (List.mem_cons_self _ _))
        (fun q hq => hbound q (List.mem_cons_of_mem _ hq)) hszq hstq
      rw [minEntry_cons, if_neg h]
      exact this

/-- Claim C1: for every sequence of `Add` transactions referencing the same
`leafID` (starting from a store with the counter entry present and no
existing entry for that leaf), the dedup-bucket entry afterwards stores the
minimum of all indices passed, and the timestamp paired with the first
record that carried that minimum index; a record whose index is greater
than or equal to the stored one changes nothing, so equal indices keep the
first-seen entry. -/
theorem add_same_leaf_stores_min (s : Storage) (leafID : Bytes)
    (a : Nat × Nat) (l : List (Nat × Nat))
    (hsz : ∃ sb, bGet s.sizeB sizeKey = some sb)
    (hfresh : bGet s.dedup leafID = none)
    (hbound : ∀ p ∈ a :: l, p.1 < 2 ^ 64 ∧ p.2 < 2 ^ 64) :
    ∃ sq, Storage.Add s (mkLdis leafID (a :: l)) = Except.ok sq ∧
      Storage.Get sq leafID =
        Except.ok ({ idx := minIdx a l, timestamp := (minEntry a l).2 }, true) ∧
      (minEntry a l).1 = minIdx a l ∧
      (a :: l).find? (fun p => p.1 == minIdx a l) = some (minEntry a l) := by
  obtain ⟨sb, hsb⟩ := hsz
  have ha : a.1 < 2 ^ 64 := (hbound a (List.mem_cons_self _ _)).1
  have hstep := addOne_insert s { leafID := leafID, idx := a.1, timestamp := a.2 } sb hsb hfresh
  rw [show mkLdis leafID (a :: l) =
    { leafID := leafID, idx := a.1, timestamp := a.2 } :: mkLdis leafID l from rfl]
  rw [Add_cons _ _ _ _ hstep]
  have hszq : ∃ sbq, bGet
      (if btoi sb = a.1 then bPut s.sizeB sizeKey (itob (btoi sb + 1))
       else s.sizeB : Bucket) sizeKey = some sbq := by
    by_cases hadv : btoi sb = a.1
    · exact ⟨itob (btoi sb + 1), by rw [if_pos hadv]; exact bGet_bPut_same _ _ _⟩
    · exact ⟨sb, by rw [if_neg hadv]; exact hsb⟩
  have hstored : bGet (bPut s.dedup leafID (itob a.1 ++ itob a.2)) leafID =
      some (itob a.1 ++ itob a.2) := bGet_bPut_same _ _ _
  obtain ⟨sq, hAdd, hGet, hsk⟩ := addSeq_min l
    (Storage.mk (bPut s.dedup leafID (itob a.1 ++ itob a.2))
      (if btoi sb = a.1 then bPut s.sizeB sizeKey (itob (btoi sb + 1)) else s.sizeB))
    leafID a ha (fun q hq => (hbound q (List.mem_cons_of_mem _ hq)).1) hszq hstored
  refine ⟨sq, hAdd, ?_, minEntry_fst l a, find_minEntry l a⟩
  have hmem := minEntry_mem l a
  have hM1 : (minEntry a l).1 < 2 ^ 64 := (hbound _ hmem).1
  have hM2 : (minEntry a l).2 < 2 ^ 64 := (hbound _ hmem).2
  rw [minEntry_fst l a] at hM1
  simp only [Storage.Get, hGet, minEntry_fst l a, btov_itob_append _ _ hM1 hM2]

/-- Witness for C1: a concrete sequence with a repeated minimum index; the
store converges to index 1 with the timestamp 300 of the first record
carrying index 1. -/
theorem add_same_leaf_stores_min_witness :
    ∃ sq, Storage.Add freshStore
        (mkLdis [5] ((3, 100) :: [(7, 200), (3, 150), (1, 300), (1, 400)])) =
        Except.ok sq ∧
      Storage.Get sq [5] = Except.ok ({ idx := 1, timestamp := 300 }, true) ∧
      (minEntry (3, 100) [(7, 200), (3, 150), (1, 300), (1, 400)]).1 =
        minIdx (3, 100) [(7, 200), (3, 150), (1, 300), (1, 400)] ∧
      ((3, 100) :: [(7, 200), (3, 150), (1, 300), (1, 400)]).find?
          (fun p => p.1 == minIdx (3, 100) [(7, 200), (3, 150), (1, 300), (1, 400)]) =
        some (1, 300) :=
  add_same_leaf_stores_min freshStore [5] (3, 100)
    [(7, 200), (3, 150), (1, 300), (1, 400)] ⟨itob 0, rfl⟩ rfl (by decide)

/-- State after `Add` of index 0 (timestamp 10, leaf `[1]`) on a fresh
store. -/
def gapS1 : Storage :=
  { dedup := [([1], itob 0 ++ itob 10)], sizeB := [(sizeKey, itob 1)] }

/-- State after a further `Add` of index 2 (timestamp 20, leaf `[2]`):
the gap at index 1 leaves the counter at 1. -/
def gapS2 : Storage :=
  { dedup := [([1], itob 0 ++ itob 10), ([2], itob 2 ++ itob 20)],
    sizeB := [(sizeKey, itob 1)] }

/-- State after the late `Add` of index 1 (timestamp 30, leaf `[3]`): the
counter advances by exactly one, to 2. -/
def gapS3 : Storage :=
  { dedup := [([1], itob 0 ++ itob 10), ([2], itob 2 ++ itob 20),
      ([3], itob 1 ++ itob 30)],
    sizeB := [(sizeKey, itob 2)] }

/-- Counterexample to claim C2 as stated: on a fresh store, after `Add`
with indices 0 and 2 `LogSize` is 1, but after the subsequent `Add` with
index 1 `LogSize` is 2, not 3 — the counter only ever advances one unit
per record and never re-scans past the previously inserted index 2. -/
theorem gap_logsize_not_three :
    NewStorage { dedupB := none, sizeB := none } = Except.ok freshStore ∧
    Storage.Add freshStore [{ leafID := [1], idx := 0, timestamp := 10 }] =
      Except.ok gapS1 ∧
    Storage.Add gapS1 [{ leafID := [2], idx := 2, timestamp := 20 }] =
      Except.ok gapS2 ∧
    Storage.LogSize gapS2 = Except.ok 1 ∧
    Storage.Add gapS2 [{ leafID := [3], idx := 1, timestamp := 30 }] =
      Except.ok gapS3 ∧
    Storage.LogSize gapS3 ≠ Except.ok 3 :=
  ⟨rfl, rfl, rfl, rfl, rfl, fun h => by
    have h2 : (2 : Nat) = 3 := Except.ok.inj h
    exact absurd h2 (by decide)⟩

/-- Claim C2 (amended): on a fresh store, after `Add` with indices 0 and 2
`LogSize` returns 1, and after the subsequent `Add` with index 1 `LogSize`
returns 2. -/
theorem gap_logsize :
    NewStorage { dedupB := none, sizeB := none } = Except.ok freshStore ∧
    Storage.Add freshStore [{ leafID := [1], idx := 0, timestamp := 10 }] =
      Except.ok gapS1 ∧
    Storage.Add gapS1 [{ leafID := [2], idx := 2, timestamp := 20 }] =
      Except.ok gapS2 ∧
    Storage.LogSize gapS2 = Except.ok 1 ∧
    Storage.Add gapS2 [{ leafID := [3], idx := 1, timestamp := 30 }] =
      Except.ok gapS3 ∧
    Storage.LogSize gapS3 = Except.ok 2 :=
  ⟨rfl, rfl, rfl, rfl, rfl, rfl⟩

/-- Claim C3: a single `Add` transaction advances the counter to its value
plus one exactly when the incoming index equals the counter, and leaves it
unchanged otherwise; no hypothesis constrains the dedup bucket, so the
advance is independent of whether the dedup entry was written (a record
losing the tie-break at the frontier index still advances the counter). -/
theorem add_advances_iff_frontier (s : Storage) (ldi : LeafDedupInfo) (n : Nat)
    (hsb : bGet s.sizeB sizeKey = some (itob n)) (hn : n < 2 ^ 64) :
    ∃ sq, addOne s ldi = Except.ok sq ∧
      bGet sq.sizeB sizeKey =
        some (if n = ldi.idx then itob (n + 1) else itob n) := by
  refine ⟨_, addOne_eq s ldi (itob n) hsb, ?_⟩
  dsimp only
  rw [btoi_itob n hn]
  by_cases h : n = ldi.idx
  · rw [if_pos h, if_pos h]
    exact bGet_bPut_same _ _ _
  · rw [if_neg h, if_neg h]
    exact hsb

/-- Witness for C3: a record that loses the tie-break at exactly the
frontier index (stored index 5 ≤ incoming index 5, counter 5) still
advances the counter to 6. -/
theorem add_advances_iff_frontier_witness :
    ∃ sq, addOne
        (Storage.mk [([9], itob 5 ++ itob 100)] [(sizeKey, itob 5)])
        { leafID := [9], idx := 5, timestamp := 200 } = Except.ok sq ∧
      bGet sq.sizeB sizeKey = some (itob 6) :=
  add_advances_iff_frontier
    (Storage.mk [([9], itob 5 ++ itob 100)] [(sizeKey, itob 5)])
    { leafID := [9], idx := 5, timestamp := 200 } 5 rfl (by decide)

/-- Claim C4 (amended): as long as the 64-bit counter has not reached its
maximum value `2 ^ 64 - 1`, a successful single-record `Add` transaction
either leaves the counter unchanged or increases it by exactly one. -/
theorem add_size_monotone (s sq : Storage) (ldi : LeafDedupInfo) (n : Nat)
    (hsb : bGet s.sizeB sizeKey = some (itob n)) (hn : n + 1 < 2 ^ 64)
    (h : addOne s ldi = Except.ok sq) :
    ∃ sbq, bGet sq.sizeB sizeKey = some sbq ∧
      (btoi sbq = n ∨ btoi sbq = n + 1) := by
  rw [addOne_eq s ldi (itob n) hsb] at h
  cases h
  dsimp only
  rw [btoi_itob n (by omega)]
  by_cases hadv : n = ldi.idx
  · rw [if_pos hadv]
    exact ⟨itob (n + 1), bGet_bPut_same _ _ _, Or.inr (btoi_itob _ hn)⟩
  · rw [if_neg hadv]
    exact ⟨itob n, hsb, Or.inl (btoi_itob n (by omega))⟩

/-- Witness for C4 (amended): on a fresh store, adding index 0 advances
the counter from 0 to 1. -/
theorem add_size_monotone_witness :
    ∃ sbq, bGet
        (Storage.mk [([4], itob 0 ++ itob 7)] [(sizeKey, itob 1)]).sizeB
        sizeKey = some sbq ∧
      (btoi sbq = 0 ∨ btoi sbq = 0 + 1) :=
  add_size_monotone freshStore
    (Storage.mk [([4], itob 0 ++ itob 7)] [(sizeKey, itob 1)])
    { leafID := [4], idx := 0, timestamp := 7 } 0 rfl (by decide) rfl

/-- The store whose counter sits at the largest `uint64` value. -/
def wrapState : Storage :=
  { dedup := [], sizeB := [(sizeKey, itob (2 ^ 64 - 1))] }

/-- The record whose index equals that maximal counter value. -/
def wrapLdi : LeafDedupInfo := { leafID := [0], idx := 2 ^ 64 - 1, timestamp := 0 }

/-- The store after that `Add`: the counter has wrapped around to 0. -/
def wrapStateAfter : Storage :=
  { dedup := [([0], itob (2 ^ 64 - 1) ++ itob 0)], sizeB := [(sizeKey, itob (2 ^ 64))] }

/-- Counterexample to claim C4 as stated: at counter value `2 ^ 64 - 1`, a
successful `Add` at that frontier index stores `counter + 1` through the
8-byte codec, which wraps the `uint64` to 0 — the counter decreases, and
the new value is neither the old one nor the old one plus one. -/
theorem add_size_wrap_counterexample :
    addOne wrapState wrapLdi = Except.ok wrapStateAfter ∧
    Storage.LogSize wrapState = Except.ok (2 ^ 64 - 1) ∧
    Storage.LogSize wrapStateAfter = Except.ok 0 ∧
    ¬((0 : Nat) = 2 ^ 64 - 1 ∨ (0 : Nat) = (2 ^ 64 - 1) + 1) :=
  ⟨rfl, rfl, rfl, by decide⟩

/-- Claim C5: `NewStorage` is a three-way case split on bucket existence:
neither bucket present creates both and initialises the counter so that
`LogSize` is 0; both present resumes the persisted state; exactly one
present fails with an inconsistency error. -/
theorem newStorage_three_way :
    (NewStorage { dedupB := none, sizeB := none } = Except.ok freshStore ∧
      Storage.LogSize freshStore = Except.ok 0) ∧
    (∀ d sz : Bucket, NewStorage { dedupB := some d, sizeB := some sz } =
      Except.ok { dedup := d, sizeB := sz }) ∧
    (∀ sz : Bucket, ∃ e, NewStorage { dedupB := none, sizeB := some sz } =
      Except.error e) ∧
    (∀ d : Bucket, ∃ e, NewStorage { dedupB := some d, sizeB := none } =
      Except.error e) :=
  ⟨⟨rfl, rfl⟩, fun _ _ => rfl, fun _ => ⟨_, rfl⟩, fun _ => ⟨_, rfl⟩⟩

/-- Claim C6: the value codec round-trips: decoding the 16-byte encoding
of any `uint64` pair yields the pair back. -/
theorem vtob_btov_roundtrip (idx ts : Nat) (h1 : idx < 2 ^ 64) (h2 : ts < 2 ^ 64) :
    ∃ b, vtob idx ts = Except.ok b ∧ btov b = Except.ok (idx, ts) :=
  ⟨itob idx ++ itob ts, rfl, btov_itob_append idx ts h1 h2⟩

/-- Witness for C6 at the extreme values 0 and the maximum `uint64`. -/
theorem vtob_btov_roundtrip_witness :
    (∃ b, vtob 0 0 = Except.ok b ∧ btov b = Except.ok (0, 0)) ∧
    (∃ b, vtob (2 ^ 64 - 1) (2 ^ 64 - 1) = Except.ok b ∧
      btov b = Except.ok (2 ^ 64 - 1, 2 ^ 64 - 1)) :=
  ⟨vtob_btov_roundtrip 0 0 (by decide) (by decide),
    vtob_btov_roundtrip (2 ^ 64 - 1) (2 ^ 64 - 1) (by decide) (by decide)⟩

/-- Claim C7: a value whose length is not 16 is rejected by the decoder
with an error (total function, no truncation), and a stored value of such
a length makes `Get` surface an error to its caller. -/
theorem btov_wrong_length_errors (b : Bytes) (s : Storage) (leafID : Bytes)
    (hlen : b.length ≠ 16) (hstored : bGet s.dedup leafID = some b) :
    (∃ e, btov b = Except.error e) ∧
    (∃ e, Storage.Get s leafID = Except.error e) := by
  have hb : btov b = Except.error "input value length is not 16" := by
    unfold btov
    rw [if_pos hlen]
  refine ⟨⟨_, hb⟩, "btov(): decode failed", ?_⟩
  simp only [Storage.Get, hstored, hb]

/-- The store holding a 15-byte (corrupt) value under leaf `[1]`. -/
def corruptGetState : Storage :=
  { dedup := [([1], List.replicate 15 0)], sizeB := [(sizeKey, itob 0)] }

/-- Witness for C7 at a stored value of length 15. -/
theorem btov_wrong_length_errors_witness :
    (∃ e, btov (List.replicate 15 0) = Except.error e) ∧
    (∃ e, Storage.Get corruptGetState [1] = Except.error e) :=
  btov_wrong_length_errors (List.replicate 15 0) corruptGetState [1] (by decide) rfl

/-- A single `Add` transaction for another leaf does not create an entry
for `leafID`. -/
theorem addOne_preserves_absent (s sq : Storage) (ldi : LeafDedupInfo) (leafID : Bytes)
    (hne : ldi.leafID ≠ leafID) (habs : bGet s.dedup leafID = none)
    (h : addOne s ldi = Except.ok sq) : bGet sq.dedup leafID = none := by
  have hne2 : leafID ≠ ldi.leafID := fun e => hne e.symm
  cases hsb : bGet s.sizeB sizeKey with
  | none =>
    rw [addOne_err s ldi hsb] at h
    cases h
  | some sb =>
    rw [addOne_eq s ldi sb hsb] at h
    cases h
    dsimp only
    cases hold : bGet s.dedup ldi.leafID with
    | none =>
      rw [bGet_bPut_ne _ _ _ _ hne2]
      exact habs
    | some old =>
      dsimp only
      by_cases hc : old.length = 16 ∧ btoi (List.take 8 old) ≤ ldi.idx
      · rw [if_pos hc]
        exact habs
      · rw [if_neg hc, bGet_bPut_ne _ _ _ _ hne2]
        exact habs

/-- A batch `Add` whose records all reference other leaves does not create
an entry for `leafID`. -/
theorem Add_preserves_absent (ldis : List LeafDedupInfo) :
    ∀ (s sq : Storage) (leafID : Bytes),
      (∀ ldi ∈ ldis, ldi.leafID ≠ leafID) →
      bGet s.dedup leafID = none →
      Storage.Add s ldis = Except.ok sq →
      bGet sq.dedup leafID = none := by
  induction ldis with
  | nil =>
    intro s sq leafID _ habs h
    cases h
    exact habs
  | cons ldi rest ih =>
    intro s sq leafID hne habs h
    cases h1 : addOne s ldi with
    | error e =>
      simp [Storage.Add, h1] at h
    | ok s1 =>
      rw [Add_cons _ _ _ _ h1] at h
      exact ih s1 sq leafID (fun q hq => hne q (List.mem_cons_of_mem _ hq))
        (addOne_preserves_absent s s1 ldi leafID (hne ldi (List.mem_cons_self _ _)) habs h1) h

/-- Claim C8: starting from a freshly created store, after any successful
batch of `Add` calls none of which references `leafID`, `Get leafID`
returns `found = false` with a zero-value record and no error. -/
theorem get_unwritten_leaf (s0 sq : Storage) (leafID : Bytes)
    (ldis : List LeafDedupInfo)
    (hnew : NewStorage { dedupB := none, sizeB := none } = Except.ok s0)
    (hadd : Storage.Add s0 ldis = Except.ok sq)
    (hne : ∀ ldi ∈ ldis, ldi.leafID ≠ leafID) :
    Storage.Get sq leafID = Except.ok ({ idx := 0, timestamp := 0 }, false) := by
  have hs0 : freshStore = s0 := Except.ok.inj hnew
  have habs : bGet s0.dedup leafID = none := by
    rw [← hs0]
    rfl
  have := Add_preserves_absent ldis s0 sq leafID hne habs hadd
  simp only [Storage.Get, this]

/-- Witness for C8: an `Add` of leaf `[1]` on a fresh store, then `Get` of
the never-written leaf `[2]`. -/
theorem get_unwritten_leaf_witness :
    Storage.Get (Storage.mk [([1], itob 0 ++ itob 5)] [(sizeKey, itob 1)]) [2] =
      Except.ok ({ idx := 0, timestamp := 0 }, false) :=
  get_unwritten_leaf freshStore
    (Storage.mk [([1], itob 0 ++ itob 5)] [(sizeKey, itob 1)]) [2]
    [{ leafID := [1], idx := 0, timestamp := 5 }] rfl rfl (by decide)

/-- Claim C9: when the `"size"` key is absent from the size bucket, both
`LogSize` and `Add` (on every non-empty batch, which fails at its first
record) return an error instead of defaulting the counter to zero. -/
theorem missing_size_counter_errors (s : Storage)
    (h : bGet s.sizeB sizeKey = none) :
    (∃ e, Storage.LogSize s = Except.error e) ∧
    (∀ (ldi : LeafDedupInfo) (rest : List LeafDedupInfo),
      ∃ e, Storage.Add s (ldi :: rest) = Except.error e) := by
  constructor
  · refine ⟨"can not find log size in bucket logSize", ?_⟩
    simp only [Storage.LogSize, h]
  · intro ldi rest
    refine ⟨"db.Update(): error writing leaf index", ?_⟩
    simp only [Storage.Add, addOne_err s ldi h]

/-- The opened-store state whose size bucket lost its `"size"` entry. -/
def noSizeState : Storage := { dedup := [], sizeB := [] }

/-- Witness for C9 on a store with an empty size bucket. -/
theorem missing_size_counter_errors_witness :
    (∃ e, Storage.LogSize noSizeState = Except.error e) ∧
    (∀ (ldi : LeafDedupInfo) (rest : List LeafDedupInfo),
      ∃ e, Storage.Add noSizeState (ldi :: rest) = Except.error e) :=
  missing_size_counter_errors noSizeState rfl

/-- Claim C10: a stored dedup value whose length is not 16 bytes makes
`Add` skip the tie-break comparison and unconditionally overwrite the
corrupt value with the incoming record, whatever its index, without
surfacing any error. -/
theorem add_overwrites_corrupt (s : Storage) (ldi : LeafDedupInfo) (old sb : Bytes)
    (hold : bGet s.dedup ldi.leafID = some old) (hlen : old.length ≠ 16)
    (hsb : bGet s.sizeB sizeKey = some sb) :
    ∃ sq, Storage.Add s [ldi] = Except.ok sq ∧
      bGet sq.dedup ldi.leafID = some (itob ldi.idx ++ itob ldi.timestamp) := by
  have hstep := addOne_replace s ldi sb old hsb hold (fun hc => hlen hc.1)
  refine ⟨_, (Add_cons _ _ _ _ hstep).trans rfl, ?_⟩
  dsimp only
  exact bGet_bPut_same _ _ _

/-- The store holding a 3-byte corrupt value under leaf `[7]`. -/
def corruptAddState : Storage :=
  { dedup := [([7], [1, 2, 3])], sizeB := [(sizeKey, itob 0)] }

/-- Witness for C10: the corrupt 3-byte entry loses to an incoming record
with the large index 999. -/
theorem add_overwrites_corrupt_witness :
    ∃ sq, Storage.Add corruptAddState
        [{ leafID := [7], idx := 999, timestamp := 42 }] = Except.ok sq ∧
      bGet sq.dedup [7] = some (itob 999 ++ itob 42) :=
  add_overwrites_corrupt corruptAddState
    { leafID := [7], idx := 999, timestamp := 42 } [1, 2, 3] (itob 0)
    rfl (by decide) rfl
